import Mathlib

/-!
Shallow embedding of src/generate_jwt.py (repository Adityakau/AI-proctor).

The script loads an RSA private key from a fixed path, builds a claims
payload with two successive clock reads (one for exp, then one for iat),
signs it with RS256 via the PyJWT library, and prints the compact token.

Modelling choices:
  - bytes are natural numbers (meaningful values are < 256);
  - the two reads of int(time.time()) become explicit integer parameters
    t1 (the read used for exp, evaluated first in the dict literal) and
    t2 (the read used for iat, evaluated second);
  - the RSA-SHA256 signing primitive of the cryptographic backend is an
    explicit function parameter from message bytes to signature bytes
    (PKCS#1 v1.5 signing is a deterministic function of message and key,
    so a fixed key yields such a function);
  - jwt.encode (PyJWT, algorithm RS256) is modelled from the spec and the
    library's documented compact serialization: compact JSON with sorted
    header keys, insertion-ordered payload keys, base64url without padding.
-/

/-- Character of the base64url alphabet at index i (A-Z, a-z, 0-9, -, _).
The index is reduced mod 64 so the function is total on Nat. -/
def b64Char (i : Nat) : Char :=
  let j := i % 64
  if j < 26 then Char.ofNat (65 + j)
  else if j < 52 then Char.ofNat (71 + j)
  else if j < 62 then Char.ofNat (j - 4)
  else if j = 62 then '-' else '_'

/-- Index of a character in the base64url alphabet, none if not in it. -/
def b64Val (c : Char) : Option Nat :=
  let n := c.toNat
  if 65 ≤ n ∧ n ≤ 90 then some (n - 65)
  else if 97 ≤ n ∧ n ≤ 122 then some (n - 97 + 26)
  else if 48 ≤ n ∧ n ≤ 57 then some (n - 48 + 52)
  else if n = 45 then some 62
  else if n = 95 then some 63
  else none

/-- Unpadded base64url encoding of a byte sequence, as used by PyJWT
(base64.urlsafe_b64encode with the trailing padding stripped). -/
def b64urlEncode : List Nat → List Char
  | [] => []
  | [b0] => [b64Char (b0 / 4), b64Char (b0 % 4 * 16)]
  | [b0, b1] => [b64Char (b0 / 4), b64Char (b0 % 4 * 16 + b1 / 16), b64Char (b1 % 16 * 4)]
  | b0 :: b1 :: b2 :: rest =>
      b64Char (b0 / 4) :: b64Char (b0 % 4 * 16 + b1 / 16) ::
      b64Char (b1 % 16 * 4 + b2 / 64) :: b64Char (b2 % 64) :: b64urlEncode rest

/-- Inverse of the unpadded base64url encoding. -/
def b64urlDecode : List Char → Option (List Nat)
  | [] => some []
  | [c0, c1] =>
    match b64Val c0, b64Val c1 with
    | some v0, some v1 => some [v0 * 4 + v1 / 16]
    | _, _ => none
  | [c0, c1, c2] =>
    match b64Val c0, b64Val c1, b64Val c2 with
    | some v0, some v1, some v2 => some [v0 * 4 + v1 / 16, v1 % 16 * 16 + v2 / 4]
    | _, _, _ => none
  | c0 :: c1 :: c2 :: c3 :: rest =>
    match b64Val c0, b64Val c1, b64Val c2, b64Val c3, b64urlDecode rest with
    | some v0, some v1, some v2, some v3, some bs =>
        some ((v0 * 4 + v1 / 16) :: (v1 % 16 * 16 + v2 / 4) :: (v2 % 4 * 64 + v3) :: bs)
    | _, _, _, _, _ => none
  | _ => none

/-- Splitting a character list on the dot separator, like str.split(".") . -/
def splitDots : List Char → List (List Char)
  | [] => [[]]
  | c :: rest =>
    if c = '.' then [] :: splitDots rest
    else
      match splitDots rest with
      | [] => [[c]]
      | s :: ss => (c :: s) :: ss

/-- Claim values occurring in the script: JSON strings and integers. -/
inductive JVal where
  | jstr : String → JVal
  | jint : Int → JVal
deriving DecidableEq

/-- Decimal digit character (only used with arguments below 10). -/
def digitChar (d : Nat) : Char :=
  if d = 0 then '0' else if d = 1 then '1' else if d = 2 then '2'
  else if d = 3 then '3' else if d = 4 then '4' else if d = 5 then '5'
  else if d = 6 then '6' else if d = 7 then '7' else if d = 8 then '8' else '9'

/-- Lowercase hexadecimal digit character (only used with arguments below 16). -/
def hexDigit (d : Nat) : Char :=
  if d < 10 then digitChar d
  else if d = 10 then 'a' else if d = 11 then 'b' else if d = 12 then 'c'
  else if d = 13 then 'd' else if d = 14 then 'e' else 'f'

/-- Decimal digits of a natural number, most significant first, onto acc. -/
def natDigitsAux (n : Nat) (acc : List Char) : List Char :=
  if h : n < 10 then digitChar n :: acc
  else natDigitsAux (n / 10) (digitChar (n % 10) :: acc)
termination_by n
decreasing_by exact Nat.div_lt_self (by omega) (by omega)

/-- Decimal representation of a natural number. -/
def natChars (n : Nat) : List Char := natDigitsAux n []

/-- Decimal representation of an integer, as Python str(int) renders it. -/
def intChars (i : Int) : List Char :=
  if i < 0 then '-' :: natChars i.natAbs else natChars i.natAbs

/-- JSON escape of one character, following CPython json.dumps with the
default ensure_ascii=True: backslash, quote and the short control escapes,
u-escapes for the other control characters, ASCII kept verbatim, and
non-ASCII code points u-escaped (as a UTF-16 surrogate pair above FFFF). -/
def escChar (c : Char) : List Char :=
  let n := c.toNat
  if c = '"' then ['\\', '"']
  else if c = '\\' then ['\\', '\\']
  else if n = 8 then ['\\', 'b']
  else if n = 9 then ['\\', 't']
  else if n = 10 then ['\\', 'n']
  else if n = 12 then ['\\', 'f']
  else if n = 13 then ['\\', 'r']
  else if n < 32 then ['\\', 'u', '0', '0', hexDigit (n / 16), hexDigit (n % 16)]
  else if n < 128 then [c]
  else if n < 65536 then
    ['\\', 'u', hexDigit (n / 4096), hexDigit (n / 256 % 16),
     hexDigit (n / 16 % 16), hexDigit (n % 16)]
  else
    let m := n - 65536
    let hi := 55296 + m / 1024
    let lo := 56320 + m % 1024
    ['\\', 'u', hexDigit (hi / 4096), hexDigit (hi / 256 % 16),
     hexDigit (hi / 16 % 16), hexDigit (hi % 16),
     '\\', 'u', hexDigit (lo / 4096), hexDigit (lo / 256 % 16),
     hexDigit (lo / 16 % 16), hexDigit (lo % 16)]

/-- JSON escape of a whole string (without the surrounding quotes). -/
def escString (s : String) : List Char := (s.data.map escChar).flatten

/-- JSON rendering of a claim value. -/
def jvalChars : JVal → List Char
  | .jstr s => '"' :: escString s ++ ['"']
  | .jint i => intChars i

/-- JSON rendering of one object entry, key: value with compact separators. -/
def entryChars (e : String × JVal) : List Char :=
  '"' :: escString e.1 ++ '"' :: ':' :: jvalChars e.2

/-- JSON rendering of the comma-separated entry list. -/
def entriesChars : List (String × JVal) → List Char
  | [] => []
  | [e] => entryChars e
  | e :: e2 :: rest => entryChars e ++ ',' :: entriesChars (e2 :: rest)

/-- Compact JSON rendering of a flat object, as json.dumps with
separators=(",", ":") renders a dict of strings and ints in key order. -/
def jsonChars (cs : List (String × JVal)) : List Char :=
  '{' :: entriesChars cs ++ ['}']

/-- UTF-8 bytes of the compact JSON rendering; with ensure_ascii every
output character is ASCII, so the bytes are the code points. -/
def jsonBytes (cs : List (String × JVal)) : List Nat :=
  (jsonChars cs).map Char.toNat

/-- JOSE header written by PyJWT for algorithm RS256: json.dumps with
sort_keys=True puts alg before typ. -/
def headerClaims : List (String × JVal) :=
  [("alg", .jstr "RS256"), ("typ", .jstr "JWT")]

/-- Modelled from the spec: jwt.encode(payload, private_key, algorithm="RS256")
from src/generate_jwt.py line 17. The library call itself is outside the
repository; per the spec it serializes the RS256/JWT header and the claims,
base64url-encodes both, signs the dot-joined pair with RSA-SHA256 under the
loaded private key (here abstracted as the function sign), base64url-encodes
the signature, and joins the three segments with dots. -/
def jwtEncode (cs : List (String × JVal)) (sign : List Nat → List Nat) : List Char :=
  b64urlEncode (jsonBytes headerClaims) ++ '.' ::
    (b64urlEncode (jsonBytes cs) ++ '.' ::
      b64urlEncode (sign ((b64urlEncode (jsonBytes headerClaims) ++ '.' ::
        b64urlEncode (jsonBytes cs)).map Char.toNat)))

/-- Payload dict from src/generate_jwt.py lines 8-15, with the two successive
int(time.time()) reads as parameters: t1 is the read in the exp entry
(evaluated first), t2 the read in the iat entry (evaluated second). -/
def payload (t1 t2 : Int) : List (String × JVal) :=
  [("user_id", .jstr "test-user-001"),
   ("exam_schedule_id", .jstr "exam-sched-456"),
   ("tenant_id", .jstr "tenant-789"),
   ("attempt_no", .jint 1),
   ("exp", .jint (t1 + 3600)),
   ("iat", .jint t2)]

/-- Base claims of the payload before timestamp injection (lines 9-12). -/
def baseClaims : List (String × JVal) :=
  [("user_id", .jstr "test-user-001"),
   ("exam_schedule_id", .jstr "exam-sched-456"),
   ("tenant_id", .jstr "tenant-789"),
   ("attempt_no", .jint 1)]

/-- Modelled from the spec: timestamp injection of the issue contract, adding
exp = t1 + 3600 and iat = t2 to a claims set, in the entry order of the
payload dict of the source (exp on line 13, iat on line 14). -/
def withTimestamps (cs : List (String × JVal)) (t1 t2 : Int) : List (String × JVal) :=
  cs ++ [("exp", .jint (t1 + 3600)), ("iat", .jint t2)]

/-- Modelled from the spec: issue(claims, privateKey) -> TokenString, the
generalized single-component contract of section 4.1; the script instantiates
it at the fixed base claims. -/
def issue (cs : List (String × JVal)) (sign : List Nat → List Nat)
    (t1 t2 : Int) : List Char :=
  jwtEncode (withTimestamps cs t1 t2) sign

/-- Hardcoded key path from src/generate_jwt.py line 5. -/
def private_key_path : String :=
  "/Users/Aditya/Desktop/PROCTORING/dev-keys/jwt-private.pem"

/-- Modelled from the spec: the error taxonomy of section 7; the source lets
the corresponding exceptions from open() and from the signing backend
propagate uncaught. -/
inductive ScriptError where
  | keyLoadError : ScriptError
  | signingError : ScriptError
deriving DecidableEq

/-- Whole script src/generate_jwt.py as a function of its environment:
keyBytes is the result of reading the key file (none when the file is
missing or unreadable, so open() on line 6 raises), parseKey is the
backend's interpretation of the bytes as an RSA signing function (none
when the bytes are not a valid PEM/RSA key, so jwt.encode on line 17
raises; the spec files both failures under KeyLoadError), and t1, t2 are
the two int(time.time()) reads of lines 13-14. The ok result carries the
lines printed to standard output (line 18). -/
def runScript (keyBytes : Option String)
    (parseKey : String → Option (List Nat → List Nat))
    (t1 t2 : Int) : Except ScriptError (List (List Char)) :=
  match keyBytes with
  | none => .error .keyLoadError
  | some kb =>
    match parseKey kb with
    | none => .error .keyLoadError
    | some sign => .ok [jwtEncode (payload t1 t2) sign]

/-- Lines that reach standard output: none when the script dies on an
uncaught exception. -/
def printedOutput : Except ScriptError (List (List Char)) → List (List Char)
  | .error _ => []
  | .ok ls => ls

/-- Modelled from the spec: RS256 verification of a compact token against
the corresponding public key (abstracted as the predicate verify on message
bytes and signature bytes): split on dots, check the shape, verify the
signature over the dot-joined first two segments, and expose the decoded
payload bytes. -/
def jwtVerify (verify : List Nat → List Nat → Bool) (tok : List Char) :
    Option (List Nat) :=
  match splitDots tok with
  | [h, p, s] =>
    match b64urlDecode s with
    | some sig =>
      if verify ((h ++ '.' :: p).map Char.toNat) sig then b64urlDecode p else none
    | none => none
  | _ => none

/-- Claims of the concrete scenario of spec section 8. -/
def scenarioClaims : List (String × JVal) :=
  [("user_id", .jstr "u1"), ("exam_schedule_id", .jstr "e1"),
   ("tenant_id", .jstr "t1"), ("attempt_no", .jint 1)]

/-! Lemmas about the base64url alphabet and coder. -/

theorem b64Val_b64Char_lt : ∀ j, j < 64 → b64Val (b64Char j) = some j := by decide

theorem b64Char_mod (i : Nat) : b64Char i = b64Char (i % 64) := by
  unfold b64Char
  simp [Nat.mod_mod_of_dvd]

theorem b64Val_b64Char (i : Nat) : b64Val (b64Char i) = some (i % 64) := by
  rw [b64Char_mod]
  exact b64Val_b64Char_lt (i % 64) (Nat.mod_lt _ (by omega))

theorem b64Val_dot : b64Val '.' = none := by decide

theorem mem_b64urlEncode_isSome :
    ∀ bs : List Nat, ∀ c ∈ b64urlEncode bs, (b64Val c).isSome := by
  intro bs
  induction bs using b64urlEncode.induct with
  | case1 => intro c hc; simp [b64urlEncode] at hc
  | case2 b0 =>
    intro c hc
    simp [b64urlEncode] at hc
    rcases hc with h | h <;> simp [h, b64Val_b64Char]
  | case3 b0 b1 =>
    intro c hc
    simp [b64urlEncode] at hc
    rcases hc with h | h | h <;> simp [h, b64Val_b64Char]
  | case4 b0 b1 b2 rest ih =>
    intro c hc
    simp [b64urlEncode] at hc
    rcases hc with h | h | h | h | h
    · simp [h, b64Val_b64Char]
    · simp [h, b64Val_b64Char]
    · simp [h, b64Val_b64Char]
    · simp [h, b64Val_b64Char]
    · exact ih c h

theorem mem_b64urlEncode_ne_dot (bs : List Nat) (c : Char)
    (hc : c ∈ b64urlEncode bs) : c ≠ '.' := by
  intro h
  have := mem_b64urlEncode_isSome bs c hc
  rw [h, b64Val_dot] at this
  simp at this

theorem b64urlEncode_eq_nil (bs : List Nat) : b64urlEncode bs = [] ↔ bs = [] := by
  rcases bs with _ | ⟨b0, _ | ⟨b1, _ | ⟨b2, rest⟩⟩⟩ <;> simp [b64urlEncode]

/-! Lemmas about splitting on dots. -/

theorem splitDots_of_no_dot :
    ∀ xs : List Char, (∀ c ∈ xs, c ≠ '.') → splitDots xs = [xs] := by
  intro xs
  induction xs with
  | nil => intro _; rfl
  | cons c rest ih =>
    intro h
    have hc : c ≠ '.' := h c (List.mem_cons_self _ _)
    have hrest : splitDots rest = [rest] := ih fun x hx => h x (List.mem_cons_of_mem _ hx)
    simp [splitDots, hc, hrest]

theorem splitDots_append (xs ys : List Char) (h : ∀ c ∈ xs, c ≠ '.') :
    splitDots (xs ++ '.' :: ys) = xs :: splitDots ys := by
  induction xs with
  | nil => simp [splitDots]
  | cons c rest ih =>
    have hc : c ≠ '.' := h c (List.mem_cons_self _ _)
    have hrest := ih fun x hx => h x (List.mem_cons_of_mem _ hx)
    simp [splitDots, hc, hrest]

theorem count_dot_of_no_dot (xs : List Char) (h : ∀ c ∈ xs, c ≠ '.') :
    xs.count '.' = 0 :=
  List.count_eq_zero.mpr fun hmem => h '.' hmem rfl

/-! Round trip of the base64url coder on byte sequences. -/

theorem b64urlDecode_two (c0 c1 : Char) (v0 v1 : Nat)
    (h0 : b64Val c0 = some v0) (h1 : b64Val c1 = some v1) :
    b64urlDecode [c0, c1] = some [v0 * 4 + v1 / 16] := by
  simp [b64urlDecode, h0, h1]

theorem b64urlDecode_three (c0 c1 c2 : Char) (v0 v1 v2 : Nat)
    (h0 : b64Val c0 = some v0) (h1 : b64Val c1 = some v1) (h2 : b64Val c2 = some v2) :
    b64urlDecode [c0, c1, c2] = some [v0 * 4 + v1 / 16, v1 % 16 * 16 + v2 / 4] := by
  simp [b64urlDecode, h0, h1, h2]

theorem b64urlDecode_four (c0 c1 c2 c3 : Char) (rest : List Char)
    (v0 v1 v2 v3 : Nat) (bs : List Nat)
    (h0 : b64Val c0 = some v0) (h1 : b64Val c1 = some v1)
    (h2 : b64Val c2 = some v2) (h3 : b64Val c3 = some v3)
    (hrest : b64urlDecode rest = some bs) :
    b64urlDecode (c0 :: c1 :: c2 :: c3 :: rest) =
      some ((v0 * 4 + v1 / 16) :: (v1 % 16 * 16 + v2 / 4) :: (v2 % 4 * 64 + v3) :: bs) := by
  simp [b64urlDecode, h0, h1, h2, h3, hrest]

theorem b64url_roundtrip :
    ∀ bs : List Nat, (∀ b ∈ bs, b < 256) →
      b64urlDecode (b64urlEncode bs) = some bs := by
  intro bs
  induction bs using b64urlEncode.induct with
  | case1 => intro _; rfl
  | case2 b0 =>
    intro h
    have hb0 : b0 < 256 := h b0 (by simp)
    rw [show b64urlEncode [b0] = [b64Char (b0 / 4), b64Char (b0 % 4 * 16)] from rfl,
      b64urlDecode_two _ _ _ _ (b64Val_b64Char _) (b64Val_b64Char _)]
    congr 2
    omega
  | case3 b0 b1 =>
    intro h
    have hb0 : b0 < 256 := h b0 (by simp)
    have hb1 : b1 < 256 := h b1 (by simp)
    rw [show b64urlEncode [b0, b1] =
        [b64Char (b0 / 4), b64Char (b0 % 4 * 16 + b1 / 16), b64Char (b1 % 16 * 4)] from rfl,
      b64urlDecode_three _ _ _ _ _ _ (b64Val_b64Char _) (b64Val_b64Char _) (b64Val_b64Char _)]
    congr 3
    · omega
    · omega
  | case4 b0 b1 b2 rest ih =>
    intro h
    have hb0 : b0 < 256 := h b0 (by simp)
    have hb1 : b1 < 256 := h b1 (by simp)
    have hb2 : b2 < 256 := h b2 (by simp)
    have hrest := ih fun b hb => h b (by simp [hb])
    rw [show b64urlEncode (b0 :: b1 :: b2 :: rest) =
        b64Char (b0 / 4) :: b64Char (b0 % 4 * 16 + b1 / 16) ::
        b64Char (b1 % 16 * 4 + b2 / 64) :: b64Char (b2 % 64) :: b64urlEncode rest from rfl,
      b64urlDecode_four _ _ _ _ _ _ _ _ _ _ (b64Val_b64Char _) (b64Val_b64Char _)
        (b64Val_b64Char _) (b64Val_b64Char _) hrest]
    congr 4
    · omega
    · omega
    · omega

/-! ASCII bounds on the compact JSON rendering (ensure_ascii). -/

theorem digitChar_lt (d : Nat) : (digitChar d).toNat < 128 := by
  unfold digitChar
  repeat' split
  all_goals decide

theorem hexDigit_lt (d : Nat) : (hexDigit d).toNat < 128 := by
  unfold hexDigit
  repeat' split
  · exact digitChar_lt d
  all_goals decide

theorem natDigitsAux_ascii :
    ∀ (n : Nat) (acc : List Char), (∀ c ∈ acc, c.toNat < 128) →
      ∀ c ∈ natDigitsAux n acc, c.toNat < 128 := by
  intro n acc
  induction n, acc using natDigitsAux.induct with
  | case1 n acc h =>
    intro hacc c hc
    rw [natDigitsAux, dif_pos h] at hc
    rcases List.mem_cons.mp hc with rfl | hmem
    · exact digitChar_lt _
    · exact hacc _ hmem
  | case2 n acc h ih =>
    intro hacc c hc
    rw [natDigitsAux, dif_neg h] at hc
    refine ih ?_ c hc
    intro x hx
    rcases List.mem_cons.mp hx with rfl | hmem
    · exact digitChar_lt _
    · exact hacc _ hmem

theorem natChars_ascii (n : Nat) : ∀ c ∈ natChars n, c.toNat < 128 :=
  natDigitsAux_ascii n [] (by intro c hc; simp at hc)

theorem intChars_ascii (i : Int) : ∀ c ∈ intChars i, c.toNat < 128 := by
  intro c hc
  unfold intChars at hc
  split at hc
  · rcases List.mem_cons.mp hc with rfl | hmem
    · decide
    · exact natChars_ascii _ c hmem
  · exact natChars_ascii _ c hc

theorem mem_ite_list {P : Char → Prop} (b : Prop) [Decidable b] {l1 l2 : List Char}
    (h1 : b → ∀ x ∈ l1, P x) (h2 : ¬b → ∀ x ∈ l2, P x) :
    ∀ x ∈ (if b then l1 else l2), P x := by
  split
  · exact h1 ‹_›
  · exact h2 ‹_›

set_option maxRecDepth 2048 in
theorem escChar_ascii (c : Char) : ∀ x ∈ escChar c, x.toNat < 128 := by
  simp only [escChar]
  refine mem_ite_list _ (fun _ => by decide) (fun _ => ?_)
  refine mem_ite_list _ (fun _ => by decide) (fun _ => ?_)
  refine mem_ite_list _ (fun _ => by decide) (fun _ => ?_)
  refine mem_ite_list _ (fun _ => by decide) (fun _ => ?_)
  refine mem_ite_list _ (fun _ => by decide) (fun _ => ?_)
  refine mem_ite_list _ (fun _ => by decide) (fun _ => ?_)
  refine mem_ite_list _ (fun _ => by decide) (fun _ => ?_)
  refine mem_ite_list _ (fun _ => ?_) (fun _ => ?_)
  · intro x hx
    fin_cases hx <;> first | decide | exact hexDigit_lt _
  refine mem_ite_list _ (fun h => ?_) (fun _ => ?_)
  · intro x hx
    rcases List.mem_singleton.mp hx with rfl
    exact h
  refine mem_ite_list _ (fun _ => ?_) (fun _ => ?_)
  · intro x hx
    fin_cases hx <;> first | decide | exact hexDigit_lt _
  · refine List.forall_mem_cons.mpr ⟨by decide, ?_⟩
    refine List.forall_mem_cons.mpr ⟨by decide, ?_⟩
    refine List.forall_mem_cons.mpr ⟨hexDigit_lt _, ?_⟩
    refine List.forall_mem_cons.mpr ⟨hexDigit_lt _, ?_⟩
    refine List.forall_mem_cons.mpr ⟨hexDigit_lt _, ?_⟩
    refine List.forall_mem_cons.mpr ⟨hexDigit_lt _, ?_⟩
    refine List.forall_mem_cons.mpr ⟨by decide, ?_⟩
    refine List.forall_mem_cons.mpr ⟨by decide, ?_⟩
    refine List.forall_mem_cons.mpr ⟨hexDigit_lt _, ?_⟩
    refine List.forall_mem_cons.mpr ⟨hexDigit_lt _, ?_⟩
    refine List.forall_mem_cons.mpr ⟨hexDigit_lt _, ?_⟩
    refine List.forall_mem_cons.mpr ⟨hexDigit_lt _, ?_⟩
    intro x hx
    cases hx

theorem escString_ascii (s : String) : ∀ x ∈ escString s, x.toNat < 128 := by
  intro x hx
  simp only [escString, List.mem_flatten, List.mem_map] at hx
  obtain ⟨l, ⟨c, _, rfl⟩, hxl⟩ := hx
  exact escChar_ascii c x hxl

theorem jvalChars_ascii (v : JVal) : ∀ x ∈ jvalChars v, x.toNat < 128 := by
  cases v with
  | jstr s =>
    intro x hx
    rw [jvalChars] at hx
    rcases List.mem_cons.mp hx with rfl | hx
    · decide
    · rcases List.mem_append.mp hx with hx | hx
      · exact escString_ascii s x hx
      · rcases List.mem_singleton.mp hx with rfl
        decide
  | jint i =>
    intro x hx
    simp only [jvalChars] at hx
    exact intChars_ascii i x hx

theorem entryChars_ascii (e : String × JVal) : ∀ x ∈ entryChars e, x.toNat < 128 := by
  intro x hx
  rw [entryChars] at hx
  rcases List.mem_cons.mp hx with rfl | hx
  · decide
  · rcases List.mem_append.mp hx with hx | hx
    · exact escString_ascii _ x hx
    · rcases List.mem_cons.mp hx with rfl | hx
      · decide
      · rcases List.mem_cons.mp hx with rfl | hx
        · decide
        · exact jvalChars_ascii _ x hx

theorem entriesChars_ascii :
    ∀ cs : List (String × JVal), ∀ x ∈ entriesChars cs, x.toNat < 128 := by
  intro cs
  induction cs using entriesChars.induct with
  | case1 => intro x hx; simp [entriesChars] at hx
  | case2 e => intro x hx; exact entryChars_ascii e x hx
  | case3 e e2 rest ih =>
    intro x hx
    rw [entriesChars] at hx
    rcases List.mem_append.mp hx with hx | hx
    · exact entryChars_ascii e x hx
    · rcases List.mem_cons.mp hx with rfl | hx
      · decide
      · exact ih x hx

theorem jsonChars_ascii (cs : List (String × JVal)) :
    ∀ x ∈ jsonChars cs, x.toNat < 128 := by
  intro x hx
  rw [jsonChars] at hx
  rcases List.mem_cons.mp hx with rfl | hx
  · decide
  · rcases List.mem_append.mp hx with hx | hx
    · exact entriesChars_ascii cs x hx
    · rcases List.mem_singleton.mp hx with rfl
      decide

theorem jsonBytes_lt (cs : List (String × JVal)) : ∀ b ∈ jsonBytes cs, b < 256 := by
  intro b hb
  simp only [jsonBytes, List.mem_map] at hb
  obtain ⟨c, hc, rfl⟩ := hb
  exact Nat.lt_of_lt_of_le (jsonChars_ascii cs c hc) (by omega)

theorem jsonBytes_ne_nil (cs : List (String × JVal)) : jsonBytes cs ≠ [] := by
  simp [jsonBytes, jsonChars]

/-! Shape of the compact token. -/

theorem splitDots_jwtEncode (cs : List (String × JVal)) (sign : List Nat → List Nat) :
    splitDots (jwtEncode cs sign) =
      [b64urlEncode (jsonBytes headerClaims), b64urlEncode (jsonBytes cs),
       b64urlEncode (sign ((b64urlEncode (jsonBytes headerClaims) ++ '.' ::
         b64urlEncode (jsonBytes cs)).map Char.toNat))] := by
  unfold jwtEncode
  rw [splitDots_append _ _ (mem_b64urlEncode_ne_dot _),
      splitDots_append _ _ (mem_b64urlEncode_ne_dot _),
      splitDots_of_no_dot _ (mem_b64urlEncode_ne_dot _)]

theorem count_dot_jwtEncode (cs : List (String × JVal)) (sign : List Nat → List Nat) :
    (jwtEncode cs sign).count '.' = 2 := by
  unfold jwtEncode
  rw [List.count_append, List.count_cons, List.count_append, List.count_cons,
      count_dot_of_no_dot _ (mem_b64urlEncode_ne_dot _),
      count_dot_of_no_dot _ (mem_b64urlEncode_ne_dot _),
      count_dot_of_no_dot _ (mem_b64urlEncode_ne_dot _)]
  simp

/-! Claim theorems. -/

/-- C1, counterexample: with clock reads 0 (for exp) and 1 (for iat) the
generated payload has exp = 3600 and iat = 1, and 3600 - 1 is not 3600, so
exp - iat does not equal 3600 for every generated token. -/
theorem C1_counterexample :
    List.lookup "exp" (payload 0 1) = some (.jint 3600) ∧
    List.lookup "iat" (payload 0 1) = some (.jint 1) ∧
    ¬ ((3600 : Int) - 1 = 3600) := by decide

/-- C1 (amended): the exp claim is t1 + 3600 for the first clock read t1 and
the iat claim is the second clock read t2, so exp - iat = 3600 - (t2 - t1);
it equals 3600 exactly when the two reads return the same value. -/
theorem C1_exp_lifetime (t1 t2 e i : Int)
    (he : List.lookup "exp" (payload t1 t2) = some (.jint e))
    (hi : List.lookup "iat" (payload t1 t2) = some (.jint i)) :
    e - i = 3600 - (t2 - t1) ∧ (t2 = t1 → e - i = 3600) := by
  simp [payload, List.lookup] at he hi
  omega

/-- C1, witness for the amended theorem at clock reads (2, 2). -/
theorem C1_exp_lifetime_witness :
    (3602 : Int) - 2 = 3600 - (2 - 2) ∧ ((2 : Int) = 2 → (3602 : Int) - 2 = 3600) :=
  C1_exp_lifetime 2 2 3602 2 (by decide) (by decide)

/-- C5, counterexample: with clock reads 0 (for exp) and 3600 (for iat),
both claims are 3600 and exp > iat fails. -/
theorem C5_counterexample :
    List.lookup "exp" (payload 0 3600) = some (.jint 3600) ∧
    List.lookup "iat" (payload 0 3600) = some (.jint 3600) ∧
    ¬ ((3600 : Int) > 3600) := by decide

/-- C5 (amended): iat is exactly the second clock read, taken at claims
construction immediately before signing, and exp > iat holds whenever the
clock advances by less than 3600 seconds between the exp read and the iat
read (in particular whenever the two reads coincide). -/
theorem C5_exp_gt_iat (t1 t2 e i : Int)
    (he : List.lookup "exp" (payload t1 t2) = some (.jint e))
    (hi : List.lookup "iat" (payload t1 t2) = some (.jint i)) :
    i = t2 ∧ (t2 - t1 < 3600 → e > i) := by
  simp [payload, List.lookup] at he hi
  omega

/-- C5, witness for the amended theorem at clock reads (0, 0). -/
theorem C5_exp_gt_iat_witness :
    (0 : Int) = 0 ∧ ((0 : Int) - 0 < 3600 → (3600 : Int) > 0) :=
  C5_exp_gt_iat 0 0 3600 0 (by decide) (by decide)

/-- C7: the payload carries exactly the six fields user_id,
exam_schedule_id, tenant_id, attempt_no, exp, iat; the three identifiers are
strings, attempt_no is a positive integer, and exp and iat are integers. -/
theorem C7_payload_fields (t1 t2 : Int) :
    (payload t1 t2).map Prod.fst =
      ["user_id", "exam_schedule_id", "tenant_id", "attempt_no", "exp", "iat"] ∧
    List.lookup "user_id" (payload t1 t2) = some (.jstr "test-user-001") ∧
    List.lookup "exam_schedule_id" (payload t1 t2) = some (.jstr "exam-sched-456") ∧
    List.lookup "tenant_id" (payload t1 t2) = some (.jstr "tenant-789") ∧
    (∃ n : Int, List.lookup "attempt_no" (payload t1 t2) = some (.jint n) ∧ 0 < n) ∧
    List.lookup "exp" (payload t1 t2) = some (.jint (t1 + 3600)) ∧
    List.lookup "iat" (payload t1 t2) = some (.jint t2) := by
  exact ⟨rfl, rfl, rfl, rfl, ⟨1, rfl, by decide⟩, rfl, rfl⟩

/-- C9: the exp claim comes from the clock read taken first, so under a
monotone clock exp - iat is at most 3600 in every generated token, and the
difference falls strictly below 3600 when the clock advances between the
two reads. -/
theorem C9_lifetime_bound :
    (∀ t1 t2 e i : Int, t1 ≤ t2 →
        List.lookup "exp" (payload t1 t2) = some (.jint e) →
        List.lookup "iat" (payload t1 t2) = some (.jint i) → e - i ≤ 3600) ∧
    (∃ t1 t2 e i : Int, t1 ≤ t2 ∧
        List.lookup "exp" (payload t1 t2) = some (.jint e) ∧
        List.lookup "iat" (payload t1 t2) = some (.jint i) ∧ e - i < 3600) := by
  constructor
  · intro t1 t2 e i hle he hi
    simp [payload, List.lookup] at he hi
    omega
  · exact ⟨0, 1, 3600, 1, by decide, by decide, by decide, by decide⟩

/-- C9, witness for the universal part at clock reads (5, 7). -/
theorem C9_lifetime_bound_witness : (3605 : Int) - 7 ≤ 3600 :=
  C9_lifetime_bound.1 5 7 3605 7 (by decide) (by decide) (by decide)

/-- C10: every invocation issues the same fixed identity: user_id
test-user-001, exam_schedule_id exam-sched-456, tenant_id tenant-789 and
attempt_no 1; between invocations only the exp and iat entries vary. -/
theorem C10_fixed_identity :
    (∀ t1 t2 : Int,
      List.lookup "user_id" (payload t1 t2) = some (.jstr "test-user-001") ∧
      List.lookup "exam_schedule_id" (payload t1 t2) = some (.jstr "exam-sched-456") ∧
      List.lookup "tenant_id" (payload t1 t2) = some (.jstr "tenant-789") ∧
      List.lookup "attempt_no" (payload t1 t2) = some (.jint 1)) ∧
    (∀ (t1 t2 t1' t2' : Int) (k : String) (v : JVal), k ≠ "exp" → k ≠ "iat" →
      ((k, v) ∈ payload t1 t2 ↔ (k, v) ∈ payload t1' t2')) := by
  constructor
  · intro t1 t2; exact ⟨rfl, rfl, rfl, rfl⟩
  · intro t1 t2 t1' t2' k v hke hki
    simp only [payload, List.mem_cons, List.not_mem_nil, or_false, Prod.mk.injEq]
    constructor <;>
      rintro (⟨rfl, rfl⟩ | ⟨rfl, rfl⟩ | ⟨rfl, rfl⟩ | ⟨rfl, rfl⟩ | ⟨rfl, rfl⟩ | ⟨rfl, rfl⟩) <;>
      simp_all

/-- C10, witness: the identity entries at clock reads (0, 0). -/
theorem C10_fixed_identity_witness :
    (("user_id", JVal.jstr "test-user-001") ∈ payload 0 0 ↔
      ("user_id", JVal.jstr "test-user-001") ∈ payload 8 9) :=
  C10_fixed_identity.2 0 0 8 9 "user_id" (JVal.jstr "test-user-001")
    (by decide) (by decide)

/-- C2: for every claims set and every signing function that returns a
nonempty signature (an RSA-SHA256 signature always has the key's byte
length), the issued token has exactly two dot separators; splitting on dots
yields the base64url header segment, the base64url claims segment and the
base64url signature over the dot-joined first two segments; every segment
is nonempty and consists of base64url alphabet characters; and the header
identifies algorithm RS256 and token type JWT. -/
theorem C2_token_shape (cs : List (String × JVal)) (sign : List Nat → List Nat)
    (hs : ∀ m : List Nat, sign m ≠ []) :
    (jwtEncode cs sign).count '.' = 2 ∧
    splitDots (jwtEncode cs sign) =
      [b64urlEncode (jsonBytes headerClaims), b64urlEncode (jsonBytes cs),
       b64urlEncode (sign ((b64urlEncode (jsonBytes headerClaims) ++ '.' ::
         b64urlEncode (jsonBytes cs)).map Char.toNat))] ∧
    (∀ seg ∈ splitDots (jwtEncode cs sign), seg ≠ [] ∧ ∀ c ∈ seg, (b64Val c).isSome) ∧
    List.lookup "alg" headerClaims = some (.jstr "RS256") ∧
    List.lookup "typ" headerClaims = some (.jstr "JWT") := by
  have hne : ∀ bs : List Nat, bs ≠ [] → b64urlEncode bs ≠ [] :=
    fun bs h hEnc => h ((b64urlEncode_eq_nil bs).mp hEnc)
  refine ⟨count_dot_jwtEncode cs sign, splitDots_jwtEncode cs sign, ?_, rfl, rfl⟩
  intro seg hseg
  rw [splitDots_jwtEncode] at hseg
  rcases List.mem_cons.mp hseg with rfl | hseg
  · exact ⟨hne _ (jsonBytes_ne_nil _), mem_b64urlEncode_isSome _⟩
  rcases List.mem_cons.mp hseg with rfl | hseg
  · exact ⟨hne _ (jsonBytes_ne_nil _), mem_b64urlEncode_isSome _⟩
  rcases List.mem_cons.mp hseg with rfl | hseg
  · exact ⟨hne _ (hs _), mem_b64urlEncode_isSome _⟩
  · cases hseg

/-- C2, witness at the empty claims set and a constant one-byte signature. -/
theorem C2_token_shape_witness :
    (jwtEncode [] (fun _ => [0])).count '.' = 2 :=
  (C2_token_shape [] (fun _ => [0]) (fun _ => by simp)).1

/-- C3: base64url-decoding the payload segment of the issued token yields
exactly the compact JSON bytes of the supplied claims with the exp and iat
entries appended (exp = t1 + 3600, iat = t2) and nothing else changed. -/
theorem C3_payload_roundtrip (cs : List (String × JVal))
    (sign : List Nat → List Nat) (t1 t2 : Int) :
    b64urlDecode ((splitDots (issue cs sign t1 t2)).getD 1 []) =
      some (jsonBytes (withTimestamps cs t1 t2)) ∧
    withTimestamps cs t1 t2 = cs ++ [("exp", .jint (t1 + 3600)), ("iat", .jint t2)] := by
  constructor
  · rw [issue, splitDots_jwtEncode]
    exact b64url_roundtrip _ (jsonBytes_lt _)
  · rfl

/-- C4: when the key file is missing or unreadable (open() raises) or its
bytes are not a valid PEM/RSA key (the backend raises inside jwt.encode),
the run fails with KeyLoadError and nothing is printed. -/
theorem C4_key_load_failure (parseKey : String → Option (List Nat → List Nat))
    (t1 t2 : Int) :
    (runScript none parseKey t1 t2 = .error .keyLoadError ∧
      printedOutput (runScript none parseKey t1 t2) = []) ∧
    (∀ kb : String, parseKey kb = none →
      runScript (some kb) parseKey t1 t2 = .error .keyLoadError ∧
      printedOutput (runScript (some kb) parseKey t1 t2) = []) := by
  refine ⟨⟨rfl, rfl⟩, ?_⟩
  intro kb hkb
  simp [runScript, hkb, printedOutput]

/-- C4, witness: a readable file whose bytes parse as no RSA key. -/
theorem C4_key_load_failure_witness :
    runScript (some "not a pem key") (fun _ => none) 0 0 = .error .keyLoadError ∧
    printedOutput (runScript (some "not a pem key") (fun _ => none) 0 0) = [] :=
  (C4_key_load_failure (fun _ => none) 0 0).2 "not a pem key" rfl

/-- C6: two runs with identical claims, identical signing key and identical
clock reads produce identical tokens; across runs that differ only in the
clock reads the header segment is unchanged and the claims sets agree on
every entry other than exp and iat. -/
theorem C6_determinism :
    (∀ (cs cs' : List (String × JVal)) (sign sign' : List Nat → List Nat)
        (t1 t2 t1' t2' : Int),
      cs = cs' → sign = sign' → t1 = t1' → t2 = t2' →
      issue cs sign t1 t2 = issue cs' sign' t1' t2') ∧
    (∀ (cs : List (String × JVal)) (sign sign' : List Nat → List Nat)
        (t1 t2 t1' t2' : Int),
      (splitDots (issue cs sign t1 t2)).headD [] =
        (splitDots (issue cs sign' t1' t2')).headD []) ∧
    (∀ (cs : List (String × JVal)) (t1 t2 t1' t2' : Int) (k : String) (v : JVal),
      k ≠ "exp" → k ≠ "iat" →
      ((k, v) ∈ withTimestamps cs t1 t2 ↔ (k, v) ∈ withTimestamps cs t1' t2')) := by
  refine ⟨?_, ?_, ?_⟩
  · rintro cs _ sign _ t1 t2 _ _ rfl rfl rfl rfl
    rfl
  · intro cs sign sign' t1 t2 t1' t2'
    rw [issue, issue, splitDots_jwtEncode, splitDots_jwtEncode]
    rfl
  · intro cs t1 t2 t1' t2' k v hke hki
    simp only [withTimestamps, List.mem_append, List.mem_cons, List.not_mem_nil,
      or_false, Prod.mk.injEq]
    constructor <;>
      rintro (h | ⟨rfl, rfl⟩ | ⟨rfl, rfl⟩) <;>
      first | exact Or.inl h | simp_all

/-- C6, witness: equal inputs at clock reads (1, 2), and invariance of a
non-timestamp entry between clock reads (1, 2) and (3, 4). -/
theorem C6_determinism_witness :
    issue [] (fun _ => []) 1 2 = issue [] (fun _ => []) 1 2 ∧
    (("a", JVal.jint 0) ∈ withTimestamps [("a", JVal.jint 0)] 1 2 ↔
      ("a", JVal.jint 0) ∈ withTimestamps [("a", JVal.jint 0)] 3 4) :=
  ⟨C6_determinism.1 [] [] (fun _ => []) (fun _ => []) 1 2 1 2 rfl rfl rfl rfl,
   C6_determinism.2.2 [("a", JVal.jint 0)] 1 2 3 4 "a" (JVal.jint 0)
     (by decide) (by decide)⟩

/-- C8: for any correct signing/verification pair (a valid RSA-SHA256 key
pair gives one, the signature bytes being bytes), verifying the token
issued for the scenario claims user_id u1, exam_schedule_id e1, tenant_id
t1, attempt_no 1 succeeds, exposes the payload bytes of those claims with
exp and iat appended, and attempt_no is 1 in the verified claims set. -/
theorem C8_scenario (sign : List Nat → List Nat)
    (verify : List Nat → List Nat → Bool) (t1 t2 : Int)
    (hv : ∀ m : List Nat, verify m (sign m) = true)
    (hb : ∀ m : List Nat, ∀ b ∈ sign m, b < 256) :
    jwtVerify verify (issue scenarioClaims sign t1 t2) =
      some (jsonBytes (withTimestamps scenarioClaims t1 t2)) ∧
    List.lookup "attempt_no" (withTimestamps scenarioClaims t1 t2) =
      some (.jint 1) := by
  constructor
  · rw [issue, jwtVerify, splitDots_jwtEncode]
    simp only [b64url_roundtrip _ (hb _), hv, if_true]
    exact b64url_roundtrip _ (jsonBytes_lt _)
  · rfl

/-- C8, witness: a toy correct pair signing every message as bytes 1,2,3. -/
theorem C8_scenario_witness :
    jwtVerify (fun _ s => decide (s = [1, 2, 3]))
        (issue scenarioClaims (fun _ => [1, 2, 3]) 10 10) =
      some (jsonBytes (withTimestamps scenarioClaims 10 10)) ∧
    List.lookup "attempt_no" (withTimestamps scenarioClaims 10 10) =
      some (.jint 1) :=
  C8_scenario (fun _ => [1, 2, 3]) (fun _ s => decide (s = [1, 2, 3])) 10 10
    (fun _ => by simp) (fun m b hbm => by simp at hbm; omega)
